import Mathlib

/-!
Verification of the odds aggregation and opportunity detection engine
(`src/ante_ai/storage.py`, `src/scripts/arb_alerts.py`,
`src/scripts/tight_line_summary.py`) against its natural-language
specification.

The Python code is shallowly embedded: CSV rows are structures of strings,
Python `int(...)` / `float(...)` / `datetime.fromisoformat(...)` become
explicit `Option`-returning parsers, exceptions become `Except`/`Option`,
Python floats are idealised as exact rationals (`ℚ`), and `datetime`
instants are microseconds on an absolute (proleptic-Gregorian, UTC) scale.
Python `sorted` / `list.sort` (stable) is embedded as a stable insertion
sort, and Python `dict` iteration order (insertion order) as first
occurrence order of keys.
-/

/-!
Batteries marks the `Rat` field operations `@[irreducible]`; restoring the
default reducibility lets concrete runs of the embedded code be evaluated
by `decide`/`rfl` (the kernel never honoured the attribute anyway).
-/

attribute [local semireducible] Rat.add Rat.mul Rat.inv Rat.sub Rat.ofScientific

/-! ## String primitives

Structural versions of the string operations the scripts use, so that
concrete runs reduce: Python `str.lower()` (the book identifiers are
ASCII), `str.replace("Z", "+00:00")`, and Python string comparison
(lexicographic on code points). -/

def asciiLowerChar (c : Char) : Char :=
  if 65 ≤ c.toNat ∧ c.toNat ≤ 90 then Char.ofNat (c.toNat + 32) else c

def asciiLower (s : String) : String :=
  ⟨s.data.map asciiLowerChar⟩

def replaceZOffset (s : String) : String :=
  ⟨s.data.flatMap (fun c => if c = 'Z' then ['+', '0', '0', ':', '0', '0'] else [c])⟩

def charListLt : List Char → List Char → Bool
  | [], [] => false
  | [], _ :: _ => true
  | _ :: _, [] => false
  | a :: as, b :: bs =>
    if a.toNat < b.toNat then true
    else if b.toNat < a.toNat then false
    else charListLt as bs

def strLt (a b : String) : Bool :=
  charListLt a.data b.data

/-! ## Generic list machinery -/

/-- Distinct elements of a list in first-occurrence order: the iteration
order of the keys of a Python `dict` built by inserting along the list. -/
def dedupFirstAux [DecidableEq α] (seen : List α) : List α → List α
  | [] => []
  | x :: xs => if x ∈ seen then dedupFirstAux seen xs else x :: dedupFirstAux (x :: seen) xs

def dedupFirst [DecidableEq α] (l : List α) : List α :=
  dedupFirstAux [] l

/-- One step of a stable insertion sort: `lt` is the strict order on sort
keys; a new element is inserted after every element it is not strictly
smaller than, which is exactly the placement produced by Python's stable
`sorted`. -/
def insBy (lt : α → α → Bool) (x : α) : List α → List α
  | [] => [x]
  | y :: ys => if lt x y then x :: y :: ys else y :: insBy lt x ys

/-- Stable sort by the strict comparison `lt`, embedding Python `sorted`
(and `list.sort`). -/
def stableSortBy (lt : α → α → Bool) (l : List α) : List α :=
  l.foldl (fun acc x => insBy lt x acc) []

/-- Python `max(xs, key=...)` / `min(xs, key=...)` on a nonempty list:
`better y b` means the new candidate `y` beats the current best `b`;
the first-arriving optimum is kept because replacement is strict. -/
def pickBestBy (better : α → α → Bool) (x : α) (xs : List α) : α :=
  xs.foldl (fun b y => if better y b then y else b) x

deriving instance DecidableEq for Except

/-- Propagating `Except` over a list, mirroring a Python loop whose body
may raise: the first raised exception aborts the whole loop. -/
def exceptMapList (f : κ → Except String β) : List κ → Except String (List β)
  | [] => .ok []
  | k :: ks =>
    match f k, exceptMapList f ks with
    | .ok b, .ok bs => .ok (b :: bs)
    | .error e, _ => .error e
    | .ok _, .error e => .error e

/-! ## Numeric helpers -/

/-- Round a rational to the nearest integer, ties to even: the rounding
used by Python's built-in `round`.  (The Python code rounds binary floats;
the embedding idealises prices and probabilities as exact rationals, and
every value the claims mention is far from a tie.) -/
def roundHalfEven (q : ℚ) : ℤ :=
  let f := ⌊q⌋
  let r := q - (f : ℚ)
  if r < 1/2 then f
  else if 1/2 < r then f + 1
  else if f % 2 = 0 then f else f + 1

/-- Python `round(q, n)` for `n ≥ 0`. -/
def pyRound (q : ℚ) (n : ℕ) : ℚ :=
  ((roundHalfEven (q * (10 : ℚ) ^ n) : ℚ)) / (10 : ℚ) ^ n

/-- Embeds `american_to_decimal` from `arb_alerts.py` / `tight_line_summary.py`:
the `ValueError` raised on a price inside `(-100, 100)` becomes `none`. -/
def americanToDecimal (a : ℤ) : Option ℚ :=
  if 100 ≤ a then some (1 + (a : ℚ) / 100)
  else if a ≤ -100 then some (1 + 100 / (|a| : ℚ))
  else none

/-- Embeds `is_valid_american_odds` from the scripts. -/
def isValidAmericanOdds (a : ℤ) : Bool :=
  100 ≤ a ∨ a ≤ -100

/-! ## Parsers for the Python primitives

The CSV layer hands every field to the scripts as a string; the scripts
convert with `int(...)`, `float(...)` and `datetime.fromisoformat(...)`,
catching the exceptions.  The parsers below model those conversions,
returning `none` where Python raises. -/

def isDigitChar (c : Char) : Bool :=
  48 ≤ c.toNat && c.toNat ≤ 57

def isSpaceChar (c : Char) : Bool :=
  c = ' ' || c = '\t' || c = '\n' || c = '\r'

/-- Strip leading and trailing whitespace, as `int()`/`float()` do. -/
def stripChars (cs : List Char) : List Char :=
  ((cs.dropWhile isSpaceChar).reverse.dropWhile isSpaceChar).reverse

def digitVal (c : Char) : ℕ :=
  c.toNat - 48

/-- Digit run with optional single interior underscores (Python integer
literal syntax accepted by `int(str)`); first character already consumed
as a digit by the caller. -/
def parseDigitsAux (acc : ℕ) : List Char → Option ℕ
  | [] => some acc
  | c :: cs =>
    if isDigitChar c then parseDigitsAux (acc * 10 + digitVal c) cs
    else if c = '_' then
      match cs with
      | [] => none
      | d :: ds => if isDigitChar d then parseDigitsAux (acc * 10 + digitVal d) ds else none
    else none

def parseDigits : List Char → Option ℕ
  | [] => none
  | c :: cs => if isDigitChar c then parseDigitsAux (digitVal c) cs else none

/-- Python `int(s)` on a decimal string: optional surrounding whitespace,
optional sign, nonempty digit run; anything else raises `ValueError`,
modelled as `none`. -/
def parsePyInt (s : String) : Option ℤ :=
  match stripChars s.data with
  | '+' :: rest => (parseDigits rest).map (fun n => (n : ℤ))
  | '-' :: rest => (parseDigits rest).map (fun n => -(n : ℤ))
  | cs => (parseDigits cs).map (fun n => (n : ℤ))

def allDigits (cs : List Char) : Bool :=
  cs.all isDigitChar

def digitsToNat (cs : List Char) : ℕ :=
  cs.foldl (fun a c => a * 10 + digitVal c) 0

/-- Unsigned fixed-point decimal: `d+`, `d+.d*` or `.d+` (the forms the
repository ever writes for a line value). -/
def parseUnsignedDec (cs : List Char) : Option ℚ :=
  let ip := cs.takeWhile (fun c => c ≠ '.')
  let rest := cs.dropWhile (fun c => c ≠ '.')
  match rest with
  | [] => if ip ≠ [] ∧ allDigits ip then some ((digitsToNat ip : ℚ)) else none
  | _ :: fp =>
    if (ip ≠ [] ∨ fp ≠ []) ∧ allDigits ip ∧ allDigits fp ∧ fp.all (fun c => c ≠ '.') then
      some ((digitsToNat ip : ℚ) + (digitsToNat fp : ℚ) / (10 : ℚ) ^ fp.length)
    else none

/-- Python `float(s)` restricted to fixed-point decimal notation (the only
shape this repository writes for spread/total lines). -/
def parsePyFloat (s : String) : Option ℚ :=
  match stripChars s.data with
  | '+' :: rest => parseUnsignedDec rest
  | '-' :: rest => (parseUnsignedDec rest).map (fun q => -q)
  | cs => parseUnsignedDec cs

/-- Embeds `OddsStorage._parse_line`: `None`/empty string mean "no line", a
`ValueError` from `float` also gives `None`. -/
def parseLineField (s : String) : Option ℚ :=
  if s = "" then none else parsePyFloat s

/-! ### Timestamps

`datetime.fromisoformat` on the strings this system writes
(`YYYY-MM-DDTHH:MM:SS[.ffffff]+00:00`, `isoformat()` of an aware UTC
`datetime`).  The result is microseconds since day 0 of year 1 (UTC).
A string without a UTC offset yields a naive datetime, which Python then
refuses to compare with `datetime.now(timezone.utc)` (`TypeError`, caught
by the bare `except` that skips the row), so the embedding folds that
case into a parse failure. -/

def isLeapYear (y : ℕ) : Bool :=
  (y % 4 = 0 && y % 100 ≠ 0) || y % 400 = 0

def daysInMonth (y m : ℕ) : ℕ :=
  if m = 2 then (if isLeapYear y then 29 else 28)
  else if m = 4 ∨ m = 6 ∨ m = 9 ∨ m = 11 then 30
  else 31

def daysBeforeMonth (y m : ℕ) : ℕ :=
  let base := [0, 31, 59, 90, 120, 151, 181, 212, 243, 273, 304, 334].getD (m - 1) 0
  if isLeapYear y ∧ 2 < m then base + 1 else base

/-- Days from 0001-01-01 to the given civil date (proleptic Gregorian). -/
def daysFromCivil (y m d : ℕ) : ℕ :=
  let py := y - 1
  py * 365 + py / 4 - py / 100 + py / 400 + daysBeforeMonth y m + (d - 1)

def microPerDay : ℤ := 86400000000

def twoDigits (a b : Char) : Option ℕ :=
  if isDigitChar a ∧ isDigitChar b then some (digitVal a * 10 + digitVal b) else none

/-- Trailing part of an aware ISO timestamp after the seconds: either the
UTC offset directly or a fractional-second field followed by the offset.
Returns the microsecond fraction. -/
def parseTsRest : List Char → Option ℕ
  | '+' :: '0' :: '0' :: ':' :: '0' :: '0' :: [] => some 0
  | '.' :: cs =>
    let fr := cs.takeWhile isDigitChar
    let rest := cs.dropWhile isDigitChar
    if rest = ['+', '0', '0', ':', '0', '0'] ∧ 1 ≤ fr.length ∧ fr.length ≤ 6 then
      some (digitsToNat fr * 10 ^ (6 - fr.length))
    else none
  | _ => none

/-- Embeds `datetime.fromisoformat` for the aware UTC timestamps this repository
writes, as microseconds on an absolute scale. -/
def parseAwareTs (s : String) : Option ℤ :=
  match s.data with
  | y1 :: y2 :: y3 :: y4 :: '-' :: m1 :: m2 :: '-' :: d1 :: d2 :: sep :: h1 :: h2 ::
      ':' :: n1 :: n2 :: ':' :: s1 :: s2 :: rest =>
    if (sep = 'T' ∨ sep = ' ') ∧ isDigitChar y1 ∧ isDigitChar y2 ∧ isDigitChar y3 ∧
        isDigitChar y4 then
      let y := ((digitVal y1 * 10 + digitVal y2) * 10 + digitVal y3) * 10 + digitVal y4
      match twoDigits m1 m2, twoDigits d1 d2, twoDigits h1 h2, twoDigits n1 n2,
          twoDigits s1 s2, parseTsRest rest with
      | some mo, some dy, some hh, some mi, some ss, some us =>
        if 1 ≤ y ∧ 1 ≤ mo ∧ mo ≤ 12 ∧ 1 ≤ dy ∧ dy ≤ daysInMonth y mo ∧
            hh ≤ 23 ∧ mi ≤ 59 ∧ ss ≤ 59 then
          some ((daysFromCivil y mo dy : ℤ) * microPerDay +
            (((hh * 60 + mi) * 60 + ss : ℕ) : ℤ) * 1000000 + (us : ℤ))
        else none
      | _, _, _, _, _, _ => none
    else none
  | _ => none

/-! ## Movement aggregator (`src/ante_ai/storage.py`, `generate_latest`)

A history CSV row as handed to `generate_latest` by `csv.DictReader`:
every field is a string (`OddsRow.fieldnames`). -/

structure HistRow where
  timestamp_utc : String
  book : String
  sport : String
  event_id : String
  event_start_time : String
  home_team : String
  away_team : String
  market_type : String
  outcome : String
  price : String
  line : String
deriving DecidableEq

/-- A row of the regenerated `latest.csv` (`LatestOddsRow`). -/
structure LatestRow where
  book : String
  sport : String
  event_id : String
  event_start_time : Option String
  home_team : String
  away_team : String
  market_type : String
  outcome : String
  opening_price : ℤ
  current_price : ℤ
  price_movement : ℤ
  opening_line : Option ℚ
  current_line : Option ℚ
  line_movement : Option ℚ
  last_updated : String
deriving DecidableEq, Inhabited

/-- The grouping key of `generate_latest`:
`(book, sport, event_id, market_type, outcome)`. -/
def histKey (r : HistRow) : String × String × String × String × String :=
  (r.book, r.sport, r.event_id, r.market_type, r.outcome)

/-- The key fields carried by a latest-snapshot row. -/
def latestKey (r : LatestRow) : String × String × String × String × String :=
  (r.book, r.sport, r.event_id, r.market_type, r.outcome)

/-- Embeds `grouped[key]`: the rows of one group, in arrival order (the Python
loop appends each record to `grouped[key]` while scanning the history in
order). -/
def groupOf (h : List HistRow) (k : String × String × String × String × String) :
    List HistRow :=
  h.filter (fun r => histKey r = k)

/-- The distinct grouping keys in `dict` iteration order (first
occurrence). -/
def keysOf (h : List HistRow) : List (String × String × String × String × String) :=
  dedupFirst (h.map histKey)

/-- Embeds `sorted(records, key=lambda r: r["timestamp_utc"])`: Python's stable
sort on the raw timestamp strings (lexicographic on code points, which is
chronological for the uniform ISO format the store writes). -/
def tsLt (a b : HistRow) : Bool :=
  strLt a.timestamp_utc b.timestamp_utc

/-- The body of the per-group loop of `generate_latest`, applied to the
already sorted group: take first and last, parse prices (an unparsable
price raises `ValueError`, aborting the run: `Except.error`), parse lines
leniently. -/
def latestRowOfSorted : List HistRow → Except String LatestRow
  | [] => .error "empty group"
  | r0 :: rs =>
    let first := r0
    let last := (r0 :: rs).getLast (List.cons_ne_nil r0 rs)
    match parsePyInt first.price, parsePyInt last.price with
    | some op, some cp =>
      let ol := parseLineField first.line
      let cl := parseLineField last.line
      .ok
        { book := last.book
          sport := last.sport
          event_id := last.event_id
          event_start_time := if last.event_start_time = "" then none else some last.event_start_time
          home_team := last.home_team
          away_team := last.away_team
          market_type := last.market_type
          outcome := last.outcome
          opening_price := op
          current_price := cp
          price_movement := cp - op
          opening_line := ol
          current_line := cl
          line_movement := match ol, cl with
            | some a, some b => some (b - a)
            | _, _ => none
          last_updated := last.timestamp_utc }
    | _, _ => .error "invalid price"

/-- The per-group loop body of `generate_latest`: sort by timestamp, then
reduce. -/
def latestRowOfGroup (g : List HistRow) : Except String LatestRow :=
  latestRowOfSorted (stableSortBy tsLt g)

/-- Strict lexicographic comparison on
`(sport, event_id, market_type, outcome)`, the key of the final
`latest_rows.sort`. -/
def outLt (a b : LatestRow) : Bool :=
  if a.sport ≠ b.sport then strLt a.sport b.sport
  else if a.event_id ≠ b.event_id then strLt a.event_id b.event_id
  else if a.market_type ≠ b.market_type then strLt a.market_type b.market_type
  else strLt a.outcome b.outcome

/-- The aggregation core of `generate_latest`: group the history, reduce
each group, sort the output rows.  A `ValueError` anywhere aborts the
whole computation. -/
def aggregateHistory (h : List HistRow) : Except String (List LatestRow) :=
  match exceptMapList (fun k => latestRowOfGroup (groupOf h k)) (keysOf h) with
  | .ok rows => .ok (stableSortBy outLt rows)
  | .error e => .error e

/-- The snapshot row computed for one key of a history all of whose
group-boundary prices parse (proof helper; `default` is never reached in
that case). -/
def rowOfKey (h : List HistRow) (k : String × String × String × String × String) :
    LatestRow :=
  match latestRowOfGroup (groupOf h k) with
  | .ok row => row
  | .error _ => default

/-- Embeds `generate_latest` as a transformer of the `latest.csv` contents: an
empty (or absent) history returns before touching the file, and a raised
exception propagates before the file is opened, so in both cases the old
snapshot survives; otherwise the file is rewritten from scratch with
exactly the aggregation output. -/
def generateLatestFile (h : List HistRow) (oldLatest : List LatestRow) : List LatestRow :=
  if h.isEmpty then oldLatest
  else
    match aggregateHistory h with
    | .ok rows => rows
    | .error _ => oldLatest

/-- The chronologically earliest observation of a group, ties broken by
arrival order: the running strict minimum of the timestamp strings. -/
def chronEarliest : List HistRow → Option HistRow
  | [] => none
  | x :: xs => some (xs.foldl (fun b r => if tsLt r b then r else b) x)

/-! ## Arbitrage detector (`src/scripts/arb_alerts.py`)

A row of `latest.csv` as read back by the alert scripts
(`LatestOddsRow.fieldnames`, all strings).  Only the fields the scripts
touch are listed. -/

structure SnapshotRow where
  book : String
  sport : String
  event_id : String
  event_start_time : String
  home_team : String
  away_team : String
  market_type : String
  outcome : String
  current_price : String
  current_line : String
  last_updated : String
deriving DecidableEq

/-- An entry of `events[event_id]["markets"][market][outcome]`. -/
structure OddsEntry where
  book : String
  price : ℤ
  line : String
  last_updated : String
deriving DecidableEq

structure EventInfo where
  sport : String
  home_team : String
  away_team : String
  event_start_time : String
deriving DecidableEq

structure ArbLeg where
  side : String
  book : String
  odds : ℤ
  stake : ℚ
  last_updated : String
deriving DecidableEq

structure ArbOpp where
  event_id : String
  sport : String
  home_team : String
  away_team : String
  event_start_time : String
  market : String
  roi_percent : ℚ
  profit : ℚ
  found_at : Option ℤ
  leg1 : ArbLeg
  leg2 : ArbLeg
deriving DecidableEq

def minRoiPercent : ℚ := 1/2

def maxRoiPercent : ℚ := 15

def minFuturesEdge : ℚ := 5

def maxImpliedProb : ℚ := 51/50

/-- The row filter of `find_arbitrage_opportunities`: allowed book,
parsable future start time (a `TypeError`/`ValueError` in the comparison
is swallowed by the bare `except`, skipping the row), parsable valid
price. -/
def arbQualifies (allowed : List String) (now : ℤ) (r : SnapshotRow) : Bool :=
  asciiLower r.book ∈ allowed &&
  (match parseAwareTs r.event_start_time with
   | some t => !(t < now)
   | none => false) &&
  (match parsePyInt r.current_price with
   | some p => isValidAmericanOdds p
   | none => false)

def entryOf (r : SnapshotRow) : OddsEntry :=
  { book := asciiLower r.book
    price := (parsePyInt r.current_price).getD 0
    line := r.current_line
    last_updated := r.last_updated }

/-- Embeds `events[e]["markets"][m][oc]`, in arrival order. -/
def outcomeGroup (q : List SnapshotRow) (e m oc : String) : List OddsEntry :=
  (q.filter (fun r => r.event_id = e ∧ r.market_type = m ∧ r.outcome = oc)).map entryOf

/-- Embeds `o.get("line") or "0"`: the totals sub-grouping key (the raw line
string; an empty string falls back to `"0"`). -/
def lineKey (o : OddsEntry) : String :=
  if o.line = "" then "0" else o.line

/-- Embeds `side1_label or event["home_team"]`: Python `or` falls through on an
empty string as well as on `None`. -/
def orLabel (lab : Option String) (dflt : String) : String :=
  match lab with
  | some s => if s = "" then dflt else s
  | none => dflt

/-- Python `max(side, key=lambda x: x["price"])`. -/
def bestByPrice (x : OddsEntry) (xs : List OddsEntry) : OddsEntry :=
  pickBestBy (fun y b => b.price < y.price) x xs

/-- The freshness loop of `check_two_way_arb`: oldest parsable
`last_updated` of the two chosen legs (empty strings are falsy and
skipped; parse/compare failures are swallowed). -/
def oldestUpdate (b1 b2 : OddsEntry) : Option ℤ :=
  [b1, b2].foldl
    (fun acc e =>
      if e.last_updated = "" then acc
      else
        match parseAwareTs (replaceZOffset e.last_updated) with
        | some t =>
          match acc with
          | none => some t
          | some o => if t < o then some t else some o
        | none => acc)
    none

/-- Embeds `check_two_way_arb`. -/
def checkTwoWayArb (side1 side2 : List OddsEntry) (ev : EventInfo)
    (market event_id : String) (lab1 lab2 : Option String) : Option ArbOpp :=
  match side1, side2 with
  | [], _ => none
  | _, [] => none
  | a :: as, b :: bs =>
    let best1 := bestByPrice a as
    let best2 := bestByPrice b bs
    match americanToDecimal best1.price, americanToDecimal best2.price with
    | some dec1, some dec2 =>
      let impliedSum := 1 / dec1 + 1 / dec2
      if 1 ≤ impliedSum then none
      else
        let roi := (1 / impliedSum - 1) * 100
        if roi < minRoiPercent ∨ maxRoiPercent < roi then none
        else
          let stake1 := (1 / dec1) / impliedSum * 100
          let stake2 := (1 / dec2) / impliedSum * 100
          let profit := stake1 * dec1 - 100
          some
            { event_id := event_id
              sport := ev.sport
              home_team := ev.home_team
              away_team := ev.away_team
              event_start_time := ev.event_start_time
              market := market
              roi_percent := pyRound roi 2
              profit := pyRound profit 2
              found_at := oldestUpdate best1 best2
              leg1 :=
                { side := orLabel lab1 ev.home_team
                  book := best1.book
                  odds := best1.price
                  stake := pyRound stake1 2
                  last_updated := best1.last_updated }
              leg2 :=
                { side := orLabel lab2 ev.away_team
                  book := best2.book
                  odds := best2.price
                  stake := pyRound stake2 2
                  last_updated := best2.last_updated } }
    | _, _ => none

/-- A candidate two-sided comparison produced while walking one market of
one event. -/
structure CandPair where
  side1 : List OddsEntry
  side2 : List OddsEntry
  lab1 : Option String
  lab2 : Option String

/-- The per-market dispatch of `find_arbitrage_opportunities` (and of
`find_tight_lines`, which duplicates it): moneyline compares the home and
away groups; totals compare over and under per distinct line string, in
first-occurrence order of the over lines; other markets are ignored. -/
def marketCandidates (grp : String → List OddsEntry) (m : String) : List CandPair :=
  if m = "moneyline" then [⟨grp "home", grp "away", none, none⟩]
  else if m = "total" then
    let overs := grp "over"
    let unders := grp "under"
    (dedupFirst (overs.map lineKey)).filterMap
      (fun l =>
        let oversL := overs.filter (fun o => lineKey o = l)
        let undersL := unders.filter (fun o => lineKey o = l)
        if undersL.isEmpty then none
        else some ⟨oversL, undersL, some ("Over " ++ l), some ("Under " ++ l)⟩)
  else []

/-- Embeds `sorted(opportunities, key=lambda x: x["roi_percent"], reverse=True)`. -/
def roiGt (a b : ArbOpp) : Bool :=
  b.roi_percent < a.roi_percent

/-- Embeds `find_arbitrage_opportunities(odds, allowed_books)`; `now` is the
`datetime.now(timezone.utc)` instant taken at entry. -/
def findArbitrageOpportunities (odds : List SnapshotRow) (allowed : List String)
    (now : ℤ) : List ArbOpp :=
  let q := odds.filter (arbQualifies allowed now)
  let evs := dedupFirst (q.map (fun r => r.event_id))
  let opps := evs.flatMap
    (fun e =>
      match q.find? (fun r => r.event_id = e) with
      | none => []
      | some info =>
        let ev : EventInfo :=
          { sport := info.sport
            home_team := info.home_team
            away_team := info.away_team
            event_start_time := info.event_start_time }
        let mkts := dedupFirst ((q.filter (fun r => r.event_id = e)).map (fun r => r.market_type))
        mkts.flatMap
          (fun m =>
            (marketCandidates (fun oc => outcomeGroup q e m oc) m).filterMap
              (fun c => checkTwoWayArb c.side1 c.side2 ev m e c.lab1 c.lab2)))
  stableSortBy roiGt opps

/-! ## Tight-line detector (`src/scripts/tight_line_summary.py`)

The script is a near-duplicate of the arbitrage detector with a narrower
event window and a different acceptance band; its odds entries do not
carry `last_updated`. -/

structure TightEntry where
  book : String
  price : ℤ
  line : String
deriving DecidableEq

structure TightLeg where
  side : String
  book : String
  odds : ℤ
deriving DecidableEq

structure TightRec where
  event_id : String
  sport : String
  home_team : String
  away_team : String
  event_start_time : String
  market : String
  implied_prob_sum : ℚ
  gap_to_arb : ℚ
  leg1 : TightLeg
  leg2 : TightLeg
deriving DecidableEq

/-- The row filter of `find_tight_lines`: allowed book, parsable start
time inside `[now, now + 1 day]`, parsable valid price. -/
def tightQualifies (allowed : List String) (now : ℤ) (r : SnapshotRow) : Bool :=
  asciiLower r.book ∈ allowed &&
  (match parseAwareTs r.event_start_time with
   | some t => !(t < now) && !(now + microPerDay < t)
   | none => false) &&
  (match parsePyInt r.current_price with
   | some p => isValidAmericanOdds p
   | none => false)

def tightEntryOf (r : SnapshotRow) : TightEntry :=
  { book := asciiLower r.book
    price := (parsePyInt r.current_price).getD 0
    line := r.current_line }

def tightOutcomeGroup (q : List SnapshotRow) (e m oc : String) : List TightEntry :=
  (q.filter (fun r => r.event_id = e ∧ r.market_type = m ∧ r.outcome = oc)).map tightEntryOf

def tightLineKey (o : TightEntry) : String :=
  if o.line = "" then "0" else o.line

def tightBestByPrice (x : TightEntry) (xs : List TightEntry) : TightEntry :=
  pickBestBy (fun y b => b.price < y.price) x xs

/-- Embeds `check_tight_line`. -/
def checkTightLine (side1 side2 : List TightEntry) (ev : EventInfo)
    (market event_id : String) (lab1 lab2 : Option String) : Option TightRec :=
  match side1, side2 with
  | [], _ => none
  | _, [] => none
  | a :: as, b :: bs =>
    let best1 := tightBestByPrice a as
    let best2 := tightBestByPrice b bs
    match americanToDecimal best1.price, americanToDecimal best2.price with
    | some dec1, some dec2 =>
      let impliedSum := 1 / dec1 + 1 / dec2
      if impliedSum < 1 ∨ maxImpliedProb < impliedSum then none
      else
        let gap := (impliedSum - 1) * 100
        some
          { event_id := event_id
            sport := ev.sport
            home_team := ev.home_team
            away_team := ev.away_team
            event_start_time := ev.event_start_time
            market := market
            implied_prob_sum := pyRound impliedSum 4
            gap_to_arb := pyRound gap 2
            leg1 :=
              { side := orLabel lab1 ev.home_team
                book := best1.book
                odds := best1.price }
            leg2 :=
              { side := orLabel lab2 ev.away_team
                book := best2.book
                odds := best2.price } }
    | _, _ => none

structure TightCandPair where
  side1 : List TightEntry
  side2 : List TightEntry
  lab1 : Option String
  lab2 : Option String

def tightMarketCandidates (grp : String → List TightEntry) (m : String) :
    List TightCandPair :=
  if m = "moneyline" then [⟨grp "home", grp "away", none, none⟩]
  else if m = "total" then
    let overs := grp "over"
    let unders := grp "under"
    (dedupFirst (overs.map tightLineKey)).filterMap
      (fun l =>
        let oversL := overs.filter (fun o => tightLineKey o = l)
        let undersL := unders.filter (fun o => tightLineKey o = l)
        if undersL.isEmpty then none
        else some ⟨oversL, undersL, some ("Over " ++ l), some ("Under " ++ l)⟩)
  else []

/-- Embeds `sorted(tight_lines, key=lambda x: x["implied_prob_sum"])`. -/
def impliedLt (a b : TightRec) : Bool :=
  a.implied_prob_sum < b.implied_prob_sum

/-- Embeds `find_tight_lines(odds, allowed_books)`; `now` is the
`datetime.now(timezone.utc)` instant, `tomorrow = now + timedelta(days=1)`. -/
def findTightLines (odds : List SnapshotRow) (allowed : List String)
    (now : ℤ) : List TightRec :=
  let q := odds.filter (tightQualifies allowed now)
  let evs := dedupFirst (q.map (fun r => r.event_id))
  let recs := evs.flatMap
    (fun e =>
      match q.find? (fun r => r.event_id = e) with
      | none => []
      | some info =>
        let ev : EventInfo :=
          { sport := info.sport
            home_team := info.home_team
            away_team := info.away_team
            event_start_time := info.event_start_time }
        let mkts := dedupFirst ((q.filter (fun r => r.event_id = e)).map (fun r => r.market_type))
        mkts.flatMap
          (fun m =>
            (tightMarketCandidates (fun oc => tightOutcomeGroup q e m oc) m).filterMap
              (fun c => checkTightLine c.side1 c.side2 ev m e c.lab1 c.lab2)))
  stableSortBy impliedLt recs

/-! ## Futures-value detector (`find_futures_value` in `arb_alerts.py`) -/

structure FutQuote where
  book : String
  price : ℤ
  last_updated : String
deriving DecidableEq

structure FutRec where
  sport : String
  futures_title : String
  team : String
  edge_percent : ℚ
  best_book : String
  best_odds : ℤ
  worst_book : String
  worst_odds : ℤ
  last_updated : String
deriving DecidableEq

/-- The row filter of `find_futures_value`: futures market, allowed book,
parsable valid price.  There is no event-time filter. -/
def futQualifies (allowed : List String) (r : SnapshotRow) : Bool :=
  r.market_type = "futures" &&
  asciiLower r.book ∈ allowed &&
  (match parsePyInt r.current_price with
   | some p => isValidAmericanOdds p
   | none => false)

/-- Embeds `key = f"{sport}:{team}"` where the team is the `outcome` field. -/
def futKey (r : SnapshotRow) : String :=
  r.sport ++ ":" ++ r.outcome

def futQuoteOf (r : SnapshotRow) : FutQuote :=
  { book := asciiLower r.book
    price := (parsePyInt r.current_price).getD 0
    last_updated := r.last_updated }

/-- Embeds `futures[key]["odds"]`, in arrival order. -/
def futQuotes (odds : List SnapshotRow) (allowed : List String) (k : String) :
    List FutQuote :=
  ((odds.filter (futQualifies allowed)).filter (fun r => futKey r = k)).map futQuoteOf

def futBest (x : FutQuote) (xs : List FutQuote) : FutQuote :=
  pickBestBy (fun y b => b.price < y.price) x xs

def futWorst (x : FutQuote) (xs : List FutQuote) : FutQuote :=
  pickBestBy (fun y b => y.price < b.price) x xs

/-- The per-key body of `find_futures_value`. -/
def futStep (odds : List SnapshotRow) (allowed : List String) (k : String) :
    Option FutRec :=
  match (odds.filter (futQualifies allowed)).find? (fun r => futKey r = k) with
  | none => none
  | some info =>
    match futQuotes odds allowed k with
    | [] => none
    | [_] => none
    | q :: qs =>
      let best := futBest q qs
      let worst := futWorst q qs
      match americanToDecimal best.price, americanToDecimal worst.price with
      | some bd, some wd =>
        let bestImplied := 1 / bd
        let worstImplied := 1 / wd
        let edge := (worstImplied - bestImplied) * 100
        if minFuturesEdge ≤ edge then
          some
            { sport := info.sport
              futures_title := info.home_team
              team := info.outcome
              edge_percent := pyRound edge 1
              best_book := best.book
              best_odds := best.price
              worst_book := worst.book
              worst_odds := worst.price
              last_updated := best.last_updated }
        else none
      | _, _ => none

def edgeGt (a b : FutRec) : Bool :=
  b.edge_percent < a.edge_percent

/-- Embeds `find_futures_value(odds, allowed_books)`. -/
def findFuturesValue (odds : List SnapshotRow) (allowed : List String) :
    List FutRec :=
  let q := odds.filter (futQualifies allowed)
  let ks := dedupFirst (q.map futKey)
  stableSortBy edgeGt (ks.filterMap (futStep odds allowed))

/-! ## Alert dedup store -/

/-- Modelled from the spec: the repository sources contain no Alert Dedup
Store implementation (the alert scripts in `src/scripts` post every
opportunity found on every run); spec section 4.5 and the Alert Dedup
Entry of section 3 describe the component.  A persisted mapping from
opportunity key to the UTC instant (microseconds) it was first alerted. -/
structure DedupStore where
  entries : List (String × ℤ)
deriving DecidableEq

/-- Modelled from the spec: garbage collection on read — on load, any
entry older than the 24-hour retention window is dropped before use. -/
def cleanOnLoad (s : DedupStore) (now : ℤ) : DedupStore :=
  ⟨s.entries.filter (fun p => now < p.2 + microPerDay)⟩

/-- Modelled from the spec: `is_new(key)` — true when the key is absent
from the (cleaned) mapping. -/
def isNewKey (s : DedupStore) (k : String) : Bool :=
  s.entries.all (fun p => p.1 ≠ k)

/-- Modelled from the spec: `mark(key, now)` — record the first-alerted
timestamp of a newly surfaced key. -/
def markKey (s : DedupStore) (k : String) (now : ℤ) : DedupStore :=
  ⟨s.entries ++ [(k, now)]⟩

/-- Modelled from the spec: one run of the detector against the dedup
store — load with cleanup, emit exactly the candidate keys that are new,
mark them, save both carried-over and newly marked entries. -/
def runDedup (s : DedupStore) (cands : List String) (now : ℤ) :
    List String × DedupStore :=
  let loaded := cleanOnLoad s now
  let fresh := cands.filter (fun k => isNewKey loaded k)
  (fresh, fresh.foldl (fun st k => markKey st k now) loaded)

/-! ## Concrete inputs for the counterexamples and witnesses -/

/-- The instant 2025-01-01T00:00:00+00:00 in microseconds. -/
def now2025 : ℤ := (parseAwareTs "2025-01-01T00:00:00+00:00").getD 0

def c1Books : List String := ["fanduel"]

/-- Both sides of one moneyline market priced +110 by the same allowed
book: an internal arbitrage (implied sum 20/21). -/
def c1Odds : List SnapshotRow :=
  [{ book := "FanDuel", sport := "basketball_nba", event_id := "ev1",
     event_start_time := "2030-01-01T00:00:00+00:00", home_team := "Bulls",
     away_team := "Lakers", market_type := "moneyline", outcome := "home",
     current_price := "110", current_line := "", last_updated := "" },
   { book := "FanDuel", sport := "basketball_nba", event_id := "ev1",
     event_start_time := "2030-01-01T00:00:00+00:00", home_team := "Bulls",
     away_team := "Lakers", market_type := "moneyline", outcome := "away",
     current_price := "110", current_line := "", last_updated := "" }]

def c2Good : HistRow :=
  { timestamp_utc := "2025-01-01T00:00:00+00:00", book := "fanduel",
    sport := "basketball_nba", event_id := "ev1",
    event_start_time := "2025-01-02T00:00:00+00:00", home_team := "Bulls",
    away_team := "Lakers", market_type := "moneyline", outcome := "home",
    price := "110", line := "" }

/-- The sole observation of its key, with a price no `int(...)` accepts. -/
def c2Bad : HistRow :=
  { timestamp_utc := "2025-01-01T00:05:00+00:00", book := "draftkings",
    sport := "basketball_nba", event_id := "ev1",
    event_start_time := "2025-01-02T00:00:00+00:00", home_team := "Bulls",
    away_team := "Lakers", market_type := "moneyline", outcome := "home",
    price := "abc", line := "" }

/-- A history with one well-formed observation and, under a different
key, a single observation whose price is not an integer. -/
def c2Hist : List HistRow :=
  [c2Good, c2Bad]

/-- Three observations: one key observed twice (opening at the earlier
timestamp), a second key observed once. -/
def w4Hist : List HistRow :=
  [{ timestamp_utc := "2025-01-01T10:00:00+00:00", book := "fanduel",
     sport := "basketball_nba", event_id := "ev1",
     event_start_time := "2025-01-02T00:00:00+00:00", home_team := "Bulls",
     away_team := "Lakers", market_type := "total", outcome := "over",
     price := "-110", line := "210.5" },
   { timestamp_utc := "2025-01-01T08:00:00+00:00", book := "fanduel",
     sport := "basketball_nba", event_id := "ev1",
     event_start_time := "2025-01-02T00:00:00+00:00", home_team := "Bulls",
     away_team := "Lakers", market_type := "total", outcome := "over",
     price := "-105", line := "209.5" },
   { timestamp_utc := "2025-01-01T09:00:00+00:00", book := "draftkings",
     sport := "basketball_nba", event_id := "ev1",
     event_start_time := "2025-01-02T00:00:00+00:00", home_team := "Bulls",
     away_team := "Lakers", market_type := "moneyline", outcome := "away",
     price := "120", line := "" }]

def c5Event : EventInfo :=
  { sport := "basketball_nba", home_team := "Bulls", away_team := "Lakers",
    event_start_time := "2030-01-01T00:00:00+00:00" }

def c5Side1 : List OddsEntry :=
  [{ book := "fanduel", price := -150, line := "", last_updated := "" }]

def c5Side2 : List OddsEntry :=
  [{ book := "draftkings", price := 160, line := "", last_updated := "" }]

def c6Books : List String := ["fanduel", "draftkings"]

/-- Home +100 at one allowed book, away +100 at another, game twelve
hours away: the implied probability sum is exactly 1. -/
def c6Odds : List SnapshotRow :=
  [{ book := "fanduel", sport := "basketball_nba", event_id := "ev1",
     event_start_time := "2025-01-01T12:00:00+00:00", home_team := "Bulls",
     away_team := "Lakers", market_type := "moneyline", outcome := "home",
     current_price := "100", current_line := "", last_updated := "" },
   { book := "draftkings", sport := "basketball_nba", event_id := "ev1",
     event_start_time := "2025-01-01T12:00:00+00:00", home_team := "Bulls",
     away_team := "Lakers", market_type := "moneyline", outcome := "away",
     current_price := "100", current_line := "", last_updated := "" }]

def c7Books : List String := ["fanduel"]

/-- One book quoting the same futures selection in two competitions at
-300 and -400: implied probabilities 3/4 and 4/5, an edge of exactly 5
percentage points, and only one distinct book. -/
def c7Odds : List SnapshotRow :=
  [{ book := "fanduel", sport := "basketball_nba", event_id := "champ2025",
     event_start_time := "", home_team := "NBA Championship", away_team := "",
     market_type := "futures", outcome := "Lakers",
     current_price := "-300", current_line := "", last_updated := "" },
   { book := "fanduel", sport := "basketball_nba", event_id := "west2025",
     event_start_time := "", home_team := "Western Conference", away_team := "",
     market_type := "futures", outcome := "Lakers",
     current_price := "-400", current_line := "", last_updated := "" }]

/-- A leftover snapshot row whose market no longer appears in (an empty)
history. -/
def c8Stale : LatestRow :=
  { book := "fanduel", sport := "basketball_nba", event_id := "gone",
    event_start_time := none, home_team := "Bulls", away_team := "Lakers",
    market_type := "moneyline", outcome := "home", opening_price := 110,
    current_price := 120, price_movement := 10, opening_line := none,
    current_line := none, line_movement := none,
    last_updated := "2024-12-31T00:00:00+00:00" }

def w8Hist : List HistRow :=
  [{ timestamp_utc := "2025-01-01T00:00:00+00:00", book := "fanduel",
     sport := "basketball_nba", event_id := "ev1",
     event_start_time := "2025-01-02T00:00:00+00:00", home_team := "Bulls",
     away_team := "Lakers", market_type := "moneyline", outcome := "home",
     price := "110", line := "" }]

def w9Books : List String := ["fanduel", "draftkings"]

/-- One moneyline event with a genuine cross-book arbitrage (+120/+110)
and another, twelve hours out, with a tight line (+100 and -105). -/
def w9Odds : List SnapshotRow :=
  [{ book := "fanduel", sport := "basketball_nba", event_id := "arb1",
     event_start_time := "2025-01-01T06:00:00+00:00", home_team := "Bulls",
     away_team := "Lakers", market_type := "moneyline", outcome := "home",
     current_price := "120", current_line := "", last_updated := "" },
   { book := "draftkings", sport := "basketball_nba", event_id := "arb1",
     event_start_time := "2025-01-01T06:00:00+00:00", home_team := "Bulls",
     away_team := "Lakers", market_type := "moneyline", outcome := "away",
     current_price := "110", current_line := "", last_updated := "" },
   { book := "fanduel", sport := "basketball_nba", event_id := "tight1",
     event_start_time := "2025-01-01T12:00:00+00:00", home_team := "Heat",
     away_team := "Celtics", market_type := "moneyline", outcome := "home",
     current_price := "100", current_line := "", last_updated := "" },
   { book := "draftkings", sport := "basketball_nba", event_id := "tight1",
     event_start_time := "2025-01-01T12:00:00+00:00", home_team := "Heat",
     away_team := "Celtics", market_type := "moneyline", outcome := "away",
     current_price := "-105", current_line := "", last_updated := "" }]

def c10Books : List String := ["fanduel"]

/-- A futures quote for the Lakers in the championship market. -/
def c10RowA : SnapshotRow :=
  { book := "fanduel", sport := "basketball_nba", event_id := "champ2025",
    event_start_time := "", home_team := "NBA Championship", away_team := "",
    market_type := "futures", outcome := "Lakers",
    current_price := "150", current_line := "", last_updated := "" }

/-- A futures quote for the same team by the same book, but in a
different competition (different `event_id` and futures title). -/
def c10RowB : SnapshotRow :=
  { book := "fanduel", sport := "basketball_nba", event_id := "west2025",
    event_start_time := "", home_team := "Western Conference", away_team := "",
    market_type := "futures", outcome := "Lakers",
    current_price := "-120", current_line := "", last_updated := "" }

/-- The same book quoting the same (sport, team) in two different futures
competitions; the two quotes share one comparison group. -/
def c10Odds : List SnapshotRow :=
  [c10RowA, c10RowB]

/-- The opportunity the arbitrage detector emits on `c1Odds`: both legs
booked at fanduel. -/
def c1Opp : ArbOpp :=
  { event_id := "ev1", sport := "basketball_nba", home_team := "Bulls",
    away_team := "Lakers", event_start_time := "2030-01-01T00:00:00+00:00",
    market := "moneyline", roi_percent := 5, profit := 5, found_at := none,
    leg1 := { side := "Bulls", book := "fanduel", odds := 110, stake := 50,
              last_updated := "" },
    leg2 := { side := "Lakers", book := "fanduel", odds := 110, stake := 50,
              last_updated := "" } }

/-- The record the tight-line detector emits on `c6Odds`: implied
probability sum exactly 1. -/
def c6Rec : TightRec :=
  { event_id := "ev1", sport := "basketball_nba", home_team := "Bulls",
    away_team := "Lakers", event_start_time := "2025-01-01T12:00:00+00:00",
    market := "moneyline", implied_prob_sum := 1, gap_to_arb := 0,
    leg1 := { side := "Bulls", book := "fanduel", odds := 100 },
    leg2 := { side := "Lakers", book := "draftkings", odds := 100 } }

/-- The record the futures detector emits on `c7Odds`: best and worst
book coincide and the edge is exactly the 5-point floor. -/
def c7Rec : FutRec :=
  { sport := "basketball_nba", futures_title := "NBA Championship",
    team := "Lakers", edge_percent := 5, best_book := "fanduel",
    best_odds := -300, worst_book := "fanduel", worst_odds := -400,
    last_updated := "" }

/-- The record the futures detector emits on `c10Odds`: its two quotes
come from different competitions and the same book. -/
def c10Rec : FutRec :=
  { sport := "basketball_nba", futures_title := "NBA Championship",
    team := "Lakers", edge_percent := 29/2, best_book := "fanduel",
    best_odds := 150, worst_book := "fanduel", worst_odds := -120,
    last_updated := "" }

/-- The aggregation of `w8Hist`. -/
def w8Rows : List LatestRow :=
  [{ book := "fanduel", sport := "basketball_nba", event_id := "ev1",
     event_start_time := some "2025-01-02T00:00:00+00:00", home_team := "Bulls",
     away_team := "Lakers", market_type := "moneyline", outcome := "home",
     opening_price := 110, current_price := 110, price_movement := 0,
     opening_line := none, current_line := none, line_movement := none,
     last_updated := "2025-01-01T00:00:00+00:00" }]

/-- The arbitrage opportunity found in `w9Odds`. -/
def w9Opp : ArbOpp :=
  { event_id := "arb1", sport := "basketball_nba", home_team := "Bulls",
    away_team := "Lakers", event_start_time := "2025-01-01T06:00:00+00:00",
    market := "moneyline", roi_percent := 186/25, profit := 186/25,
    found_at := none,
    leg1 := { side := "Bulls", book := "fanduel", odds := 120, stake := 1221/25,
              last_updated := "" },
    leg2 := { side := "Lakers", book := "draftkings", odds := 110, stake := 1279/25,
              last_updated := "" } }

/-- The tight line found in `w9Odds`. -/
def w9Rec : TightRec :=
  { event_id := "tight1", sport := "basketball_nba", home_team := "Heat",
    away_team := "Celtics", event_start_time := "2025-01-01T12:00:00+00:00",
    market := "moneyline", implied_prob_sum := 5061/5000, gap_to_arb := 61/50,
    leg1 := { side := "Heat", book := "fanduel", odds := 100 },
    leg2 := { side := "Celtics", book := "draftkings", odds := -105 } }

/-! ## Lemmas about the generic list machinery -/

theorem mem_dedupFirstAux [DecidableEq α] (l : List α) :
    ∀ (seen : List α) (x : α), x ∈ dedupFirstAux seen l ↔ x ∈ l ∧ x ∉ seen := by
  induction l with
  | nil => intro seen x; simp [dedupFirstAux]
  | cons y ys ih =>
    intro seen x
    by_cases hy : y ∈ seen
    · simp only [dedupFirstAux, if_pos hy]
      rw [ih seen x]
      constructor
      · rintro ⟨hx, hs⟩
        exact ⟨List.mem_cons_of_mem _ hx, hs⟩
      · rintro ⟨hx, hs⟩
        rcases List.mem_cons.mp hx with h | h
        · exact absurd (h ▸ hy) hs
        · exact ⟨h, hs⟩
    · simp only [dedupFirstAux, if_neg hy]
      constructor
      · intro hx
        rcases List.mem_cons.mp hx with h | h
        · subst h
          exact ⟨List.mem_cons_self x ys, hy⟩
        · obtain ⟨h1, h2⟩ := (ih (y :: seen) x).mp h
          refine ⟨List.mem_cons_of_mem _ h1, fun hc => h2 (List.mem_cons_of_mem _ hc)⟩
      · rintro ⟨hx, hs⟩
        rcases List.mem_cons.mp hx with h | h
        · subst h
          exact List.mem_cons_self x _
        · by_cases hxy : x = y
          · subst hxy
            exact List.mem_cons_self x _
          · refine List.mem_cons_of_mem _ ((ih (y :: seen) x).mpr ⟨h, ?_⟩)
            intro hc
            rcases List.mem_cons.mp hc with h2 | h2
            · exact hxy h2
            · exact hs h2

theorem mem_dedupFirst [DecidableEq α] (l : List α) (x : α) :
    x ∈ dedupFirst l ↔ x ∈ l := by
  simp [dedupFirst, mem_dedupFirstAux]

theorem nodup_dedupFirstAux [DecidableEq α] (l : List α) :
    ∀ seen : List α, (dedupFirstAux seen l).Nodup := by
  induction l with
  | nil => intro seen; simp [dedupFirstAux]
  | cons y ys ih =>
    intro seen
    by_cases hy : y ∈ seen
    · simpa [dedupFirstAux, if_pos hy] using ih seen
    · simp only [dedupFirstAux, if_neg hy, List.nodup_cons]
      refine ⟨fun hc => ?_, ih (y :: seen)⟩
      exact ((mem_dedupFirstAux ys (y :: seen) y).mp hc).2 (List.mem_cons_self y seen)

theorem nodup_dedupFirst [DecidableEq α] (l : List α) : (dedupFirst l).Nodup :=
  nodup_dedupFirstAux l []

theorem perm_insBy (lt : α → α → Bool) (x : α) (l : List α) :
    List.Perm (insBy lt x l) (x :: l) := by
  induction l with
  | nil => simp [insBy]
  | cons y ys ih =>
    by_cases h : lt x y
    · simp [insBy, h]
    · simp only [insBy, if_neg h]
      exact List.Perm.trans (ih.cons y) (List.Perm.swap x y ys)

theorem perm_stableSortBy_aux (lt : α → α → Bool) (l : List α) :
    ∀ acc : List α, List.Perm (l.foldl (fun acc x => insBy lt x acc) acc) (acc ++ l) := by
  induction l with
  | nil => intro acc; simp
  | cons x xs ih =>
    intro acc
    have h1 : (x :: xs).foldl (fun acc x => insBy lt x acc) acc
        = xs.foldl (fun acc x => insBy lt x acc) (insBy lt x acc) := rfl
    rw [h1]
    have h2 := ih (insBy lt x acc)
    have h3 : List.Perm (insBy lt x acc ++ xs) ((x :: acc) ++ xs) :=
      (perm_insBy lt x acc).append_right xs
    have h4 : List.Perm ((x :: acc) ++ xs) (acc ++ x :: xs) := List.perm_middle.symm
    exact h2.trans (h3.trans h4)

theorem perm_stableSortBy (lt : α → α → Bool) (l : List α) :
    List.Perm (stableSortBy lt l) l := by
  simpa [stableSortBy] using perm_stableSortBy_aux lt l []

theorem mem_stableSortBy (lt : α → α → Bool) (l : List α) (x : α) :
    x ∈ stableSortBy lt l ↔ x ∈ l :=
  (perm_stableSortBy lt l).mem_iff

theorem head?_insBy (lt : α → α → Bool) (x y : α) (ys : List α) :
    (insBy lt x (y :: ys)).head? = some (if lt x y then x else y) := by
  by_cases h : lt x y <;> simp [insBy, h]

theorem head?_stableSortBy_aux (lt : α → α → Bool) (l : List α) :
    ∀ (a : α) (acc : List α), acc.head? = some a →
      (l.foldl (fun acc x => insBy lt x acc) acc).head? =
        some (l.foldl (fun b y => if lt y b then y else b) a) := by
  induction l with
  | nil => intro a acc h; simpa using h
  | cons x xs ih =>
    intro a acc h
    match acc, h with
    | b :: bs, h =>
      have hb : b = a := by simpa using h
      subst hb
      have h1 : (insBy lt x (b :: bs)).head? = some (if lt x b then x else b) :=
        head?_insBy lt x b bs
      have h2 := ih (if lt x b then x else b) (insBy lt x (b :: bs)) h1
      simpa using h2

/-- The head of a stable insertion sort of a nonempty list is the running
minimum: the first-arriving element among those with minimal key. -/
theorem head?_stableSortBy (lt : α → α → Bool) (x : α) (l : List α) :
    (stableSortBy lt (x :: l)).head? =
      some (l.foldl (fun b y => if lt y b then y else b) x) := by
  have h0 : stableSortBy lt (x :: l) =
      l.foldl (fun acc x => insBy lt x acc) [x] := rfl
  rw [h0]
  exact head?_stableSortBy_aux lt l x [x] rfl

theorem pickBestBy_mem (better : α → α → Bool) (x : α) (xs : List α) :
    pickBestBy better x xs ∈ x :: xs := by
  induction xs generalizing x with
  | nil => simp [pickBestBy]
  | cons y ys ih =>
    have hstep : pickBestBy better x (y :: ys)
        = pickBestBy better (if better y x then y else x) ys := rfl
    rw [hstep]
    rcases List.mem_cons.mp (ih (if better y x then y else x)) with h2 | h2
    · rw [h2]
      by_cases h : better y x
      · simp [h]
      · simp [h]
    · exact List.mem_cons_of_mem _ (List.mem_cons_of_mem _ h2)

theorem exceptMapList_ok (f : κ → Except String β) (g : κ → β) (ks : List κ)
    (h : ∀ k ∈ ks, f k = .ok (g k)) :
    exceptMapList f ks = .ok (ks.map g) := by
  induction ks with
  | nil => simp [exceptMapList]
  | cons k ks ih =>
    have h1 : f k = .ok (g k) := h k (List.mem_cons_self k ks)
    have h2 : exceptMapList f ks = .ok (ks.map g) :=
      ih (fun x hx => h x (List.mem_cons_of_mem _ hx))
    simp [exceptMapList, h1, h2]

theorem exceptMapList_error (f : κ → Except String β) (ks : List κ) (k : κ)
    (hk : k ∈ ks) (e : String) (he : f k = .error e) :
    ∃ msg, exceptMapList f ks = .error msg := by
  induction ks with
  | nil => cases hk
  | cons a as ih =>
    rcases List.mem_cons.mp hk with h | h
    · subst h
      exact ⟨e, by simp [exceptMapList, he]⟩
    · rcases ih h with ⟨msg, hmsg⟩
      cases hfa : f a with
      | ok b => exact ⟨msg, by simp [exceptMapList, hfa, hmsg]⟩
      | error e2 => exact ⟨e2, by simp [exceptMapList, hfa]⟩

theorem exceptMapList_ok_mem (f : κ → Except String β) (ks : List κ) (bs : List β)
    (h : exceptMapList f ks = .ok bs) :
    ∀ b ∈ bs, ∃ k ∈ ks, f k = .ok b := by
  induction ks generalizing bs with
  | nil =>
    simp only [exceptMapList] at h
    cases h
    intro b hb
    cases hb
  | cons a as ih =>
    intro b hb
    cases hfa : f a with
    | error e => simp [exceptMapList, hfa] at h
    | ok v =>
      cases hrest : exceptMapList f as with
      | error e => simp [exceptMapList, hfa, hrest] at h
      | ok vs =>
        simp only [exceptMapList, hfa, hrest] at h
        cases h
        rcases List.mem_cons.mp hb with h2 | h2
        · exact ⟨a, List.mem_cons_self a as, h2 ▸ hfa⟩
        · rcases ih vs hrest b h2 with ⟨k, hkmem, hkok⟩
          exact ⟨k, List.mem_cons_of_mem _ hkmem, hkok⟩

/-! ## Lemmas about the movement aggregator -/

theorem mem_groupOf (h : List HistRow) (k : String × String × String × String × String)
    (r : HistRow) : r ∈ groupOf h k ↔ r ∈ h ∧ histKey r = k := by
  simp [groupOf]

theorem mem_keysOf (h : List HistRow) (k : String × String × String × String × String) :
    k ∈ keysOf h ↔ k ∈ h.map histKey := by
  simp [keysOf, mem_dedupFirst]

theorem groupOf_ne_nil (h : List HistRow) (k : String × String × String × String × String)
    (hk : k ∈ keysOf h) : groupOf h k ≠ [] := by
  rw [mem_keysOf] at hk
  rcases List.mem_map.mp hk with ⟨r, hr, hkey⟩
  intro hnil
  have hmem : r ∈ groupOf h k := (mem_groupOf h k r).mpr ⟨hr, hkey⟩
  rw [hnil] at hmem
  cases hmem

/-- On a group whose running-minimum (earliest) and last-after-sort rows
both have parsable prices, the per-group loop succeeds and the opening
fields are exactly those of the chronologically earliest row. -/
theorem latestRowOfGroup_ok (g : List HistRow) (hg : g ≠ [])
    (hp : ∀ r ∈ g, (parsePyInt r.price).isSome) :
    ∃ row e op, latestRowOfGroup g = .ok row ∧
      chronEarliest g = some e ∧
      parsePyInt e.price = some op ∧
      row.opening_price = op ∧
      row.opening_line = parseLineField e.line := by
  match g, hg with
  | x :: l, _ =>
    have hhead : (stableSortBy tsLt (x :: l)).head? = some (pickBestBy tsLt x l) :=
      head?_stableSortBy tsLt x l
    have hce : chronEarliest (x :: l) = some (pickBestBy tsLt x l) := rfl
    cases hs : stableSortBy tsLt (x :: l) with
    | nil => rw [hs] at hhead; cases hhead
    | cons r0 rs =>
      rw [hs] at hhead
      have hr0 : r0 = pickBestBy tsLt x l := by simpa using hhead
      have hemem : pickBestBy tsLt x l ∈ x :: l := pickBestBy_mem tsLt x l
      obtain ⟨op, hop⟩ := Option.isSome_iff_exists.mp (hp _ hemem)
      have hop2 : parsePyInt r0.price = some op := by rw [hr0]; exact hop
      have hlastmem : (r0 :: rs).getLast (List.cons_ne_nil r0 rs) ∈ x :: l := by
        have h1 : (r0 :: rs).getLast (List.cons_ne_nil r0 rs) ∈ stableSortBy tsLt (x :: l) := by
          rw [hs]; exact List.getLast_mem _
        exact (mem_stableSortBy _ _ _).mp h1
      obtain ⟨cp, hcp⟩ := Option.isSome_iff_exists.mp (hp _ hlastmem)
      have hrun : latestRowOfGroup (x :: l) = latestRowOfSorted (r0 :: rs) := by
        rw [latestRowOfGroup, hs]
      cases hokRow : latestRowOfGroup (x :: l) with
      | error e =>
        rw [hrun] at hokRow
        simp only [latestRowOfSorted, hop2, hcp] at hokRow
        exact Except.noConfusion hokRow
      | ok row =>
        have hokRow2 := hokRow
        rw [hrun] at hokRow2
        simp only [latestRowOfSorted, hop2, hcp] at hokRow2
        injection hokRow2 with hrow
        refine ⟨row, pickBestBy tsLt x l, op, rfl, hce, hop, ?_, ?_⟩
        · rw [← hrow]
        · rw [← hrow]
          show parseLineField r0.line = parseLineField (pickBestBy tsLt x l).line
          rw [hr0]

/-- Every successful per-group reduction carries the key of its group in
the output row. -/
theorem latestKey_of_ok (g : List HistRow) (k : String × String × String × String × String)
    (hgk : ∀ r ∈ g, histKey r = k) (row : LatestRow)
    (hok : latestRowOfGroup g = .ok row) : latestKey row = k := by
  rw [latestRowOfGroup] at hok
  cases hs : stableSortBy tsLt g with
  | nil => rw [hs] at hok; simp [latestRowOfSorted] at hok
  | cons r0 rs =>
    rw [hs] at hok
    have hlast : (r0 :: rs).getLast (List.cons_ne_nil r0 rs) ∈ g := by
      have h1 : (r0 :: rs).getLast (List.cons_ne_nil r0 rs) ∈ stableSortBy tsLt g := by
        rw [hs]; exact List.getLast_mem _
      exact (mem_stableSortBy _ _ _).mp h1
    cases hop : parsePyInt r0.price with
    | none => simp [latestRowOfSorted, hop] at hok
    | some op =>
      cases hcp : parsePyInt ((r0 :: rs).getLast (List.cons_ne_nil r0 rs)).price with
      | none => simp [latestRowOfSorted, hop, hcp] at hok
      | some cp =>
        simp only [latestRowOfSorted, hop, hcp] at hok
        injection hok with hrow
        rw [← hrow]
        exact hgk _ hlast

/-- Claim C2, counterexample: `c2Hist` holds one good key and one row
with unparsable price `"abc"`; `generate_latest` does not skip that row
and continue — the `int(...)` call raises and the whole aggregation
aborts, producing no movement record for the other key either. -/
theorem c2_counterexample : aggregateHistory c2Hist = .error "invalid price" := by
  decide

/-- Claim C2, amended: when a history row with unparsable price is the
sole observation of its key, `generate_latest` raises and the whole run
aborts with an error (so the bad price is never treated as a movement of
0, but no movement records are produced for the other keys either). -/
theorem c2_unparsable_price_aborts (h : List HistRow) (r : HistRow)
    (hr : r ∈ h) (hsolo : groupOf h (histKey r) = [r])
    (hbad : parsePyInt r.price = none) :
    ∃ msg, aggregateHistory h = .error msg := by
  have hk : histKey r ∈ keysOf h :=
    (mem_keysOf h _).mpr (List.mem_map_of_mem histKey hr)
  have hgrp : latestRowOfGroup (groupOf h (histKey r)) = .error "invalid price" := by
    rw [hsolo]
    have hsort : latestRowOfGroup [r] = latestRowOfSorted [r] := rfl
    rw [hsort]
    simp [latestRowOfSorted, hbad]
  obtain ⟨msg, hmsg⟩ :=
    exceptMapList_error (fun k => latestRowOfGroup (groupOf h k)) (keysOf h) _ hk _ hgrp
  refine ⟨msg, ?_⟩
  unfold aggregateHistory
  rw [hmsg]

theorem c2_unparsable_price_aborts_witness :
    c2Bad ∈ c2Hist ∧ groupOf c2Hist (histKey c2Bad) = [c2Bad] ∧
    parsePyInt c2Bad.price = none ∧ ∃ msg, aggregateHistory c2Hist = .error msg :=
  ⟨by decide, by decide, by decide,
   c2_unparsable_price_aborts c2Hist c2Bad (by decide) (by decide) (by decide)⟩

/-- Claim C8, counterexample: on an empty (or absent) history,
`generate_latest` returns before touching the snapshot file, so the
stale row `c8Stale` survives even though its key is absent from the
(empty) history — the file does not equal the aggregation of the current
history. -/
theorem c8_counterexample :
    generateLatestFile [] [c8Stale] = [c8Stale] ∧
    aggregateHistory ([] : List HistRow) = .ok [] ∧
    ([c8Stale] : List LatestRow) ≠ ([] : List LatestRow) := by
  decide

/-- Claim C8, amended: for a nonempty history whose aggregation
succeeds, the snapshot file is fully replaced by exactly the aggregation
output — independent of the previous contents — and every surviving row
carries a key present in the current history. -/
theorem c8_overwrite_nonempty (h : List HistRow) (old : List LatestRow)
    (rows : List LatestRow) (hne : h ≠ []) (hok : aggregateHistory h = .ok rows) :
    generateLatestFile h old = rows ∧
    ∀ r ∈ rows, latestKey r ∈ h.map histKey := by
  constructor
  · match h, hne with
    | a :: t, _ =>
      simp only [generateLatestFile, List.isEmpty_cons, Bool.false_eq_true, if_false, hok]
  · intro r hrr
    unfold aggregateHistory at hok
    cases hml : exceptMapList (fun k => latestRowOfGroup (groupOf h k)) (keysOf h) with
    | error e => rw [hml] at hok; exact Except.noConfusion hok
    | ok rows0 =>
      rw [hml] at hok
      injection hok with hrows
      rw [← hrows] at hrr
      have hr0 : r ∈ rows0 := (mem_stableSortBy _ _ _).mp hrr
      obtain ⟨k, hk, hkok⟩ := exceptMapList_ok_mem _ _ _ hml r hr0
      have hkey : latestKey r = k :=
        latestKey_of_ok _ _ (fun x hx => ((mem_groupOf h k x).mp hx).2) r hkok
      rw [hkey]
      exact (mem_keysOf h k).mp hk

theorem c8_overwrite_nonempty_witness :
    w8Hist ≠ [] ∧ aggregateHistory w8Hist = .ok w8Rows ∧
    (generateLatestFile w8Hist [c8Stale] = w8Rows ∧
     ∀ r ∈ w8Rows, latestKey r ∈ w8Hist.map histKey) :=
  ⟨by decide, by decide,
   c8_overwrite_nonempty w8Hist [c8Stale] w8Rows (by decide) (by decide)⟩

theorem countP_eq_one_of_nodup_mem [DecidableEq α] (l : List α) (hl : l.Nodup)
    (a : α) (ha : a ∈ l) : l.countP (fun x => x = a) = 1 := by
  induction l with
  | nil => cases ha
  | cons b bs ih =>
    obtain ⟨hb, hbs⟩ := List.nodup_cons.mp hl
    rw [List.countP_cons]
    rcases List.mem_cons.mp ha with h | h
    · subst h
      have hz : bs.countP (fun x => decide (x = a)) = 0 := by
        rw [List.countP_eq_zero]
        intro x hx
        simp only [decide_eq_true_eq]
        intro hxa
        exact hb (hxa ▸ hx)
      simp [hz]
    · have hne : b ≠ a := fun hba => hb (hba ▸ h)
      have hone := ih hbs h
      simp [hone, hne]

/-- Claim C4: on a history whose prices all parse (the invariant the
store's own writer maintains — `OddsRow.price` is an `int`),
`generate_latest` succeeds and produces exactly one movement record per
distinct `(book, sport, event_id, market_type, outcome)` key present in
the input, and each record's `opening_price`/`opening_line` come from the
chronologically earliest observation of that key's group, ties broken by
arrival order (the running strict minimum over the timestamp strings). -/
theorem c4_one_record_per_key_opening_earliest (h : List HistRow)
    (hp : ∀ r ∈ h, (parsePyInt r.price).isSome) :
    ∃ rows, aggregateHistory h = .ok rows ∧
      rows.length = (keysOf h).length ∧
      ∀ k ∈ h.map histKey,
        rows.countP (fun r => latestKey r = k) = 1 ∧
        ∀ r ∈ rows, latestKey r = k →
          ∃ e op, chronEarliest (groupOf h k) = some e ∧
            parsePyInt e.price = some op ∧
            r.opening_price = op ∧
            r.opening_line = parseLineField e.line := by
  have hpg : ∀ k, ∀ r ∈ groupOf h k, (parsePyInt r.price).isSome :=
    fun k r hrr => hp r ((mem_groupOf h k r).mp hrr).1
  have hstep : ∀ k ∈ keysOf h, latestRowOfGroup (groupOf h k) = .ok (rowOfKey h k) := by
    intro k hk
    obtain ⟨row, e, op, hok, _, _, _, _⟩ :=
      latestRowOfGroup_ok (groupOf h k) (groupOf_ne_nil h k hk) (hpg k)
    rw [hok]
    have hrk : rowOfKey h k = row := by
      unfold rowOfKey
      rw [hok]
    rw [hrk]
  have hml : exceptMapList (fun k => latestRowOfGroup (groupOf h k)) (keysOf h)
      = .ok ((keysOf h).map (rowOfKey h)) :=
    exceptMapList_ok _ (rowOfKey h) (keysOf h) hstep
  have hkeyfun : ∀ k2 ∈ keysOf h, latestKey (rowOfKey h k2) = k2 := by
    intro k2 hk2
    exact latestKey_of_ok _ _ (fun x hx => ((mem_groupOf h k2 x).mp hx).2) _ (hstep k2 hk2)
  refine ⟨stableSortBy outLt ((keysOf h).map (rowOfKey h)), ?_, ?_, ?_⟩
  · unfold aggregateHistory
    rw [hml]
  · rw [(perm_stableSortBy outLt _).length_eq, List.length_map]
  · intro k hkmem
    have hk : k ∈ keysOf h := (mem_keysOf h k).mpr hkmem
    constructor
    · rw [(perm_stableSortBy outLt _).countP_eq, List.countP_map]
      have hcongr : ∀ k2 ∈ keysOf h,
          ((fun r => decide (latestKey r = k)) ∘ rowOfKey h) k2 ↔
            ((fun k2 => decide (k2 = k)) k2) := by
        intro k2 hk2
        simp [Function.comp, hkeyfun k2 hk2]
      rw [List.countP_congr hcongr]
      exact countP_eq_one_of_nodup_mem (keysOf h) (nodup_dedupFirst _) k hk
    · intro r hrr hrk
      have hr0 : r ∈ (keysOf h).map (rowOfKey h) := (mem_stableSortBy _ _ _).mp hrr
      obtain ⟨k2, hk2, hrk2⟩ := List.mem_map.mp hr0
      have hk2k : k2 = k := by
        rw [← hrk, ← hrk2]
        exact (hkeyfun k2 hk2).symm
      subst hk2k
      obtain ⟨row, e, op, hok, hce, hopE, hopen, holine⟩ :=
        latestRowOfGroup_ok (groupOf h k2) (groupOf_ne_nil h k2 hk2) (hpg k2)
      have hrow : r = row := by
        rw [← hrk2]
        unfold rowOfKey
        rw [hok]
      exact ⟨e, op, hce, hopE, by rw [hrow, hopen], by rw [hrow, holine]⟩

theorem c4_one_record_per_key_opening_earliest_witness :
    (∀ r ∈ w4Hist, (parsePyInt r.price).isSome) ∧
    (∃ rows, aggregateHistory w4Hist = .ok rows ∧
      rows.length = (keysOf w4Hist).length ∧
      ∀ k ∈ w4Hist.map histKey,
        rows.countP (fun r => latestKey r = k) = 1 ∧
        ∀ r ∈ rows, latestKey r = k →
          ∃ e op, chronEarliest (groupOf w4Hist k) = some e ∧
            parsePyInt e.price = some op ∧
            r.opening_price = op ∧
            r.opening_line = parseLineField e.line) :=
  ⟨by decide, c4_one_record_per_key_opening_earliest w4Hist (by decide)⟩

/-! ## Lemmas about the detectors, and the claims about them -/

theorem outcomeGroup_book_mem (q : List SnapshotRow) (allowed : List String) (now : ℤ)
    (hq : ∀ r ∈ q, arbQualifies allowed now r = true)
    (e m oc : String) (x : OddsEntry) (hx : x ∈ outcomeGroup q e m oc) :
    x.book ∈ allowed := by
  obtain ⟨r, hr, hre⟩ := List.mem_map.mp hx
  have hrq : r ∈ q := (List.mem_filter.mp hr).1
  have hqual := hq r hrq
  unfold arbQualifies at hqual
  have hbook : asciiLower r.book ∈ allowed := by
    simp only [Bool.and_eq_true, decide_eq_true_eq] at hqual
    exact hqual.1.1
  rw [← hre]
  exact hbook

theorem marketCandidates_sides (grp : String → List OddsEntry) (m : String)
    (c : CandPair) (hc : c ∈ marketCandidates grp m) :
    (∀ x ∈ c.side1, x ∈ grp "home" ∨ x ∈ grp "over") ∧
    (∀ x ∈ c.side2, x ∈ grp "away" ∨ x ∈ grp "under") := by
  unfold marketCandidates at hc
  by_cases hm : m = "moneyline"
  · rw [if_pos hm] at hc
    have hc2 : c = ⟨grp "home", grp "away", none, none⟩ := by simpa using hc
    subst hc2
    exact ⟨fun x hx => Or.inl hx, fun x hx => Or.inl hx⟩
  · rw [if_neg hm] at hc
    by_cases ht : m = "total"
    · rw [if_pos ht] at hc
      obtain ⟨l, hl, hsome⟩ := List.mem_filterMap.mp hc
      by_cases hemp : ((grp "under").filter (fun o => lineKey o = l)).isEmpty
      · rw [if_pos hemp] at hsome; cases hsome
      · rw [if_neg hemp] at hsome
        injection hsome with hcc
        subst hcc
        constructor
        · intro x hx
          exact Or.inr (List.mem_filter.mp hx).1
        · intro x hx
          exact Or.inr (List.mem_filter.mp hx).1
    · rw [if_neg ht] at hc
      cases hc

theorem checkTwoWayArb_some (side1 side2 : List OddsEntry) (ev : EventInfo)
    (market event_id : String) (lab1 lab2 : Option String) (o : ArbOpp)
    (h : checkTwoWayArb side1 side2 ev market event_id lab1 lab2 = some o) :
    (∃ x ∈ side1, o.leg1.book = x.book) ∧
    (∃ x ∈ side2, o.leg2.book = x.book) ∧
    o.event_id = event_id := by
  match side1, side2 with
  | [], s2 => simp [checkTwoWayArb] at h
  | a :: as, [] => simp [checkTwoWayArb] at h
  | a :: as, b :: bs =>
    simp only [checkTwoWayArb] at h
    cases h1 : americanToDecimal (bestByPrice a as).price with
    | none => rw [h1] at h; simp at h
    | some dec1 =>
      cases h2 : americanToDecimal (bestByPrice b bs).price with
      | none => rw [h1, h2] at h; simp at h
      | some dec2 =>
        rw [h1, h2] at h
        simp only [] at h
        by_cases hg1 : (1 : ℚ) ≤ 1 / dec1 + 1 / dec2
        · rw [if_pos hg1] at h; cases h
        · rw [if_neg hg1] at h
          by_cases hg2 : (1 / (1 / dec1 + 1 / dec2) - 1) * 100 < minRoiPercent ∨
              maxRoiPercent < (1 / (1 / dec1 + 1 / dec2) - 1) * 100
          · rw [if_pos hg2] at h; cases h
          · rw [if_neg hg2] at h
            injection h with ho
            subst ho
            refine ⟨⟨bestByPrice a as, pickBestBy_mem _ a as, rfl⟩,
              ⟨bestByPrice b bs, pickBestBy_mem _ b bs, rfl⟩, rfl⟩

/-- Inversion of the arbitrage pipeline: every emitted opportunity comes
from a candidate side pair of some market of some qualifying event. -/
theorem findArb_some (odds : List SnapshotRow) (allowed : List String) (now : ℤ)
    (o : ArbOpp) (ho : o ∈ findArbitrageOpportunities odds allowed now) :
    ∃ e m c ev,
      c ∈ marketCandidates
        (fun oc => outcomeGroup (odds.filter (arbQualifies allowed now)) e m oc) m ∧
      checkTwoWayArb c.side1 c.side2 ev m e c.lab1 c.lab2 = some o ∧
      e ∈ dedupFirst ((odds.filter (arbQualifies allowed now)).map (fun r => r.event_id)) := by
  unfold findArbitrageOpportunities at ho
  rw [mem_stableSortBy] at ho
  obtain ⟨e, he, hoInner⟩ := List.mem_flatMap.mp ho
  cases hfind : (odds.filter (arbQualifies allowed now)).find? (fun r => r.event_id = e) with
  | none => rw [hfind] at hoInner; cases hoInner
  | some info =>
    rw [hfind] at hoInner
    obtain ⟨m, hm, h3⟩ := List.mem_flatMap.mp hoInner
    obtain ⟨c, hc, hcheck⟩ := List.mem_filterMap.mp h3
    exact ⟨e, m, c,
      { sport := info.sport, home_team := info.home_team,
        away_team := info.away_team, event_start_time := info.event_start_time },
      hc, hcheck, he⟩

/-- Claim C1, counterexample: on `c1Odds` — one book pricing both sides
of a moneyline at +110 — the detector emits an opportunity whose two legs
name the same sportsbook: `check_two_way_arb` never compares the two
books. -/
theorem c1_counterexample :
    findArbitrageOpportunities c1Odds c1Books now2025 = [c1Opp] ∧
    c1Opp.leg1.book = c1Opp.leg2.book := by
  decide

/-- Claim C1, amended: each leg of an emitted opportunity is the best
price of its own side over the allowed books, so both legs come from
allowed books — but nothing forces them to be two different books. -/
theorem c1_legs_from_allowed_books (odds : List SnapshotRow) (allowed : List String)
    (now : ℤ) (o : ArbOpp) (ho : o ∈ findArbitrageOpportunities odds allowed now) :
    o.leg1.book ∈ allowed ∧ o.leg2.book ∈ allowed := by
  obtain ⟨e, m, c, ev, hc, hcheck, he⟩ := findArb_some odds allowed now o ho
  obtain ⟨⟨x1, hx1, hb1⟩, ⟨x2, hx2, hb2⟩, hoe⟩ :=
    checkTwoWayArb_some _ _ _ _ _ _ _ _ hcheck
  have hq : ∀ r ∈ odds.filter (arbQualifies allowed now),
      arbQualifies allowed now r = true :=
    fun r hr => (List.mem_filter.mp hr).2
  obtain ⟨hs1, hs2⟩ := marketCandidates_sides _ _ _ hc
  constructor
  · rw [hb1]
    rcases hs1 x1 hx1 with hg | hg
    · exact outcomeGroup_book_mem _ allowed now hq e m "home" x1 hg
    · exact outcomeGroup_book_mem _ allowed now hq e m "over" x1 hg
  · rw [hb2]
    rcases hs2 x2 hx2 with hg | hg
    · exact outcomeGroup_book_mem _ allowed now hq e m "away" x2 hg
    · exact outcomeGroup_book_mem _ allowed now hq e m "under" x2 hg

theorem c1_legs_from_allowed_books_witness :
    c1Opp ∈ findArbitrageOpportunities c1Odds c1Books now2025 ∧
    (c1Opp.leg1.book ∈ c1Books ∧ c1Opp.leg2.book ∈ c1Books) :=
  ⟨by decide, c1_legs_from_allowed_books c1Odds c1Books now2025 c1Opp (by decide)⟩

theorem checkTightLine_some (side1 side2 : List TightEntry) (ev : EventInfo)
    (market event_id : String) (lab1 lab2 : Option String) (rec : TightRec)
    (h : checkTightLine side1 side2 ev market event_id lab1 lab2 = some rec) :
    rec.event_id = event_id ∧
    ∃ d1 d2, americanToDecimal rec.leg1.odds = some d1 ∧
      americanToDecimal rec.leg2.odds = some d2 ∧
      1 ≤ 1 / d1 + 1 / d2 ∧ 1 / d1 + 1 / d2 ≤ maxImpliedProb ∧
      rec.implied_prob_sum = pyRound (1 / d1 + 1 / d2) 4 := by
  match side1, side2 with
  | [], s2 => simp [checkTightLine] at h
  | a :: as, [] => simp [checkTightLine] at h
  | a :: as, b :: bs =>
    simp only [checkTightLine] at h
    cases h1 : americanToDecimal (tightBestByPrice a as).price with
    | none => rw [h1] at h; simp at h
    | some d1 =>
      cases h2 : americanToDecimal (tightBestByPrice b bs).price with
      | none => rw [h1, h2] at h; simp at h
      | some d2 =>
        rw [h1, h2] at h
        simp only [] at h
        by_cases hg : (1 / d1 + 1 / d2 : ℚ) < 1 ∨ maxImpliedProb < 1 / d1 + 1 / d2
        · rw [if_pos hg] at h; cases h
        · rw [if_neg hg] at h
          injection h with hr
          subst hr
          push_neg at hg
          exact ⟨rfl, d1, d2, h1, h2, hg.1, hg.2, rfl⟩

/-- Inversion of the tight-line pipeline. -/
theorem findTight_some (odds : List SnapshotRow) (allowed : List String) (now : ℤ)
    (rec : TightRec) (hr : rec ∈ findTightLines odds allowed now) :
    ∃ e m c ev,
      c ∈ tightMarketCandidates
        (fun oc => tightOutcomeGroup (odds.filter (tightQualifies allowed now)) e m oc) m ∧
      checkTightLine c.side1 c.side2 ev m e c.lab1 c.lab2 = some rec ∧
      e ∈ dedupFirst ((odds.filter (tightQualifies allowed now)).map (fun r => r.event_id)) := by
  unfold findTightLines at hr
  rw [mem_stableSortBy] at hr
  obtain ⟨e, he, hInner⟩ := List.mem_flatMap.mp hr
  cases hfind : (odds.filter (tightQualifies allowed now)).find? (fun r => r.event_id = e) with
  | none => rw [hfind] at hInner; cases hInner
  | some info =>
    rw [hfind] at hInner
    obtain ⟨m, hm, h3⟩ := List.mem_flatMap.mp hInner
    obtain ⟨c, hc, hcheck⟩ := List.mem_filterMap.mp h3
    exact ⟨e, m, c,
      { sport := info.sport, home_team := info.home_team,
        away_team := info.away_team, event_start_time := info.event_start_time },
      hc, hcheck, he⟩

theorem arbQualifies_start_time (allowed : List String) (now : ℤ) (r : SnapshotRow)
    (h : arbQualifies allowed now r = true) :
    (parseAwareTs r.event_start_time).isSome := by
  unfold arbQualifies at h
  simp only [Bool.and_eq_true] at h
  obtain ⟨⟨_, ht⟩, _⟩ := h
  cases hp : parseAwareTs r.event_start_time with
  | none => rw [hp] at ht; cases ht
  | some t => rfl

theorem tightQualifies_start_time (allowed : List String) (now : ℤ) (r : SnapshotRow)
    (h : tightQualifies allowed now r = true) :
    (parseAwareTs r.event_start_time).isSome := by
  unfold tightQualifies at h
  simp only [Bool.and_eq_true] at h
  obtain ⟨⟨_, ht⟩, _⟩ := h
  cases hp : parseAwareTs r.event_start_time with
  | none => rw [hp] at ht; cases ht
  | some t => rfl

/-- Claim C6, counterexample: with both moneyline sides at +100 (decimal
2.0 each) the implied probability sum is exactly 1, yet `find_tight_lines`
emits the record — its guard is `implied_sum < 1.0`, not `<= 1.0`. -/
theorem c6_counterexample :
    findTightLines c6Odds c6Books now2025 = [c6Rec] ∧
    c6Rec.implied_prob_sum = 1 ∧
    americanToDecimal c6Rec.leg1.odds = some 2 ∧
    americanToDecimal c6Rec.leg2.odds = some 2 ∧
    (1 : ℚ) / 2 + 1 / 2 = 1 := by
  decide

/-- Claim C6, amended: for every emitted tight-line record the implied
probability sum of the two best legs satisfies
`1.0 <= implied_prob_sum <= 1.02` (the lower bound is not strict: an
exact arbitrage-boundary sum of 1.0 is emitted too). -/
theorem c6_tight_line_band (odds : List SnapshotRow) (allowed : List String)
    (now : ℤ) (rec : TightRec) (hr : rec ∈ findTightLines odds allowed now) :
    ∃ d1 d2, americanToDecimal rec.leg1.odds = some d1 ∧
      americanToDecimal rec.leg2.odds = some d2 ∧
      1 ≤ 1 / d1 + 1 / d2 ∧ 1 / d1 + 1 / d2 ≤ maxImpliedProb ∧
      rec.implied_prob_sum = pyRound (1 / d1 + 1 / d2) 4 := by
  obtain ⟨e, m, c, ev, hc, hcheck, he⟩ := findTight_some odds allowed now rec hr
  exact (checkTightLine_some _ _ _ _ _ _ _ _ hcheck).2

theorem c6_tight_line_band_witness :
    c6Rec ∈ findTightLines c6Odds c6Books now2025 ∧
    (∃ d1 d2, americanToDecimal c6Rec.leg1.odds = some d1 ∧
      americanToDecimal c6Rec.leg2.odds = some d2 ∧
      1 ≤ 1 / d1 + 1 / d2 ∧ 1 / d1 + 1 / d2 ≤ maxImpliedProb ∧
      c6Rec.implied_prob_sum = pyRound (1 / d1 + 1 / d2) 4) :=
  ⟨by decide, c6_tight_line_band c6Odds c6Books now2025 c6Rec (by decide)⟩

/-- Claim C9: a snapshot row whose `event_start_time` is absent (empty)
or unparsable is silently dropped by both the arbitrage and the
tight-line detector, so every emitted opportunity names an event for
which some input row has a parsable start time. -/
theorem c9_unparsable_start_time_excluded (odds : List SnapshotRow)
    (allowed : List String) (now : ℤ) :
    (∀ o ∈ findArbitrageOpportunities odds allowed now,
      ∃ r ∈ odds, r.event_id = o.event_id ∧ (parseAwareTs r.event_start_time).isSome) ∧
    (∀ rec ∈ findTightLines odds allowed now,
      ∃ r ∈ odds, r.event_id = rec.event_id ∧ (parseAwareTs r.event_start_time).isSome) := by
  constructor
  · intro o ho
    obtain ⟨e, m, c, ev, hc, hcheck, he⟩ := findArb_some odds allowed now o ho
    obtain ⟨_, _, hoe⟩ := checkTwoWayArb_some _ _ _ _ _ _ _ _ hcheck
    rw [mem_dedupFirst] at he
    obtain ⟨r, hr, hre⟩ := List.mem_map.mp he
    have hro : r ∈ odds := (List.mem_filter.mp hr).1
    have hrq : arbQualifies allowed now r = true := (List.mem_filter.mp hr).2
    exact ⟨r, hro, by rw [hre, hoe], arbQualifies_start_time allowed now r hrq⟩
  · intro rec hrec
    obtain ⟨e, m, c, ev, hc, hcheck, he⟩ := findTight_some odds allowed now rec hrec
    obtain ⟨hoe, _⟩ := checkTightLine_some _ _ _ _ _ _ _ _ hcheck
    rw [mem_dedupFirst] at he
    obtain ⟨r, hr, hre⟩ := List.mem_map.mp he
    have hro : r ∈ odds := (List.mem_filter.mp hr).1
    have hrq : tightQualifies allowed now r = true := (List.mem_filter.mp hr).2
    exact ⟨r, hro, by rw [hre, hoe], tightQualifies_start_time allowed now r hrq⟩

theorem c9_unparsable_start_time_excluded_witness :
    (w9Opp ∈ findArbitrageOpportunities w9Odds w9Books now2025 ∧
      ∃ r ∈ w9Odds, r.event_id = w9Opp.event_id ∧
        (parseAwareTs r.event_start_time).isSome) ∧
    (w9Rec ∈ findTightLines w9Odds w9Books now2025 ∧
      ∃ r ∈ w9Odds, r.event_id = w9Rec.event_id ∧
        (parseAwareTs r.event_start_time).isSome) :=
  ⟨⟨by decide,
    (c9_unparsable_start_time_excluded w9Odds w9Books now2025).1 w9Opp (by decide)⟩,
   ⟨by decide,
    (c9_unparsable_start_time_excluded w9Odds w9Books now2025).2 w9Rec (by decide)⟩⟩

/-- Inversion of the per-key body of `find_futures_value`. -/
theorem futStep_some (odds : List SnapshotRow) (allowed : List String) (k : String)
    (rec : FutRec) (h : futStep odds allowed k = some rec) :
    rec.sport ++ ":" ++ rec.team = k ∧
    2 ≤ (futQuotes odds allowed k).length ∧
    ∃ bd wd, americanToDecimal rec.best_odds = some bd ∧
      americanToDecimal rec.worst_odds = some wd ∧
      minFuturesEdge ≤ (1 / wd - 1 / bd) * 100 := by
  unfold futStep at h
  cases hfind : (odds.filter (futQualifies allowed)).find? (fun r => futKey r = k) with
  | none => rw [hfind] at h; cases h
  | some info =>
    rw [hfind] at h
    cases hq : futQuotes odds allowed k with
    | nil => rw [hq] at h; cases h
    | cons q qs =>
      cases qs with
      | nil => rw [hq] at h; cases h
      | cons q2 qs2 =>
        rw [hq] at h
        simp only [] at h
        cases h1 : americanToDecimal (futBest q (q2 :: qs2)).price with
        | none => rw [h1] at h; simp at h
        | some bd =>
          cases h2 : americanToDecimal (futWorst q (q2 :: qs2)).price with
          | none => rw [h1, h2] at h; simp at h
          | some wd =>
            rw [h1, h2] at h
            simp only [] at h
            by_cases hg : minFuturesEdge ≤ ((1 : ℚ) / wd - 1 / bd) * 100
            · rw [if_pos hg] at h
              injection h with hr
              subst hr
              have hkinfo : futKey info = k := by
                have hfs := List.find?_some hfind
                simpa using hfs
              refine ⟨hkinfo, ?_, bd, wd, h1, h2, hg⟩
              simp only [List.length_cons]
              omega
            · rw [if_neg hg] at h; cases h

/-- Claim C7, counterexample: `c7Odds` quotes one selection twice from
the same book at -300 and -400; the group passes the two-quote test with
only one distinct book, and the implied-probability edge is exactly the
configured floor of 5, yet the record is emitted (`edge >= 5`, not
`edge > 5`). -/
theorem c7_counterexample :
    findFuturesValue c7Odds c7Books = [c7Rec] ∧
    c7Rec.best_book = c7Rec.worst_book ∧
    americanToDecimal c7Rec.best_odds = some (4/3) ∧
    americanToDecimal c7Rec.worst_odds = some (5/4) ∧
    ((1 : ℚ) / (5/4) - 1 / (4/3)) * 100 = 5 ∧
    c7Rec.edge_percent = 5 := by
  decide

/-- Claim C7, amended: every emitted futures-value record comes from a
group with at least two allowed-book quotes of its selection (not
necessarily two distinct books), and its implied-probability edge is at
least (not strictly above) the configured 5-point floor. -/
theorem c7_futures_value_guard (odds : List SnapshotRow) (allowed : List String)
    (rec : FutRec) (hr : rec ∈ findFuturesValue odds allowed) :
    2 ≤ (futQuotes odds allowed (rec.sport ++ ":" ++ rec.team)).length ∧
    ∃ bd wd, americanToDecimal rec.best_odds = some bd ∧
      americanToDecimal rec.worst_odds = some wd ∧
      minFuturesEdge ≤ (1 / wd - 1 / bd) * 100 := by
  unfold findFuturesValue at hr
  rw [mem_stableSortBy] at hr
  obtain ⟨k, hk, hstep⟩ := List.mem_filterMap.mp hr
  obtain ⟨hkk, hlen, hrest⟩ := futStep_some odds allowed k rec hstep
  rw [hkk]
  exact ⟨hlen, hrest⟩

theorem c7_futures_value_guard_witness :
    c7Rec ∈ findFuturesValue c7Odds c7Books ∧
    (2 ≤ (futQuotes c7Odds c7Books (c7Rec.sport ++ ":" ++ c7Rec.team)).length ∧
     ∃ bd wd, americanToDecimal c7Rec.best_odds = some bd ∧
       americanToDecimal c7Rec.worst_odds = some wd ∧
       minFuturesEdge ≤ (1 / wd - 1 / bd) * 100) :=
  ⟨by decide, c7_futures_value_guard c7Odds c7Books c7Rec (by decide)⟩

/-- Claim C10: the futures detector keys its comparison groups by
`f"{sport}:{team}"` only — no `event_id`, no futures-market title — so
any two qualifying quotes sharing sport and team name land in the same
group; concretely, two quotes from different futures competitions and the
same book jointly form the emitted best-vs-worst record on `c10Odds`. -/
theorem c10_futures_grouping_by_sport_and_team :
    (∀ (odds : List SnapshotRow) (allowed : List String) (r1 r2 : SnapshotRow),
      r1 ∈ odds → r2 ∈ odds → futQualifies allowed r1 = true →
      futQualifies allowed r2 = true → r1.sport = r2.sport →
      r1.outcome = r2.outcome →
      futQuoteOf r1 ∈ futQuotes odds allowed (futKey r1) ∧
      futQuoteOf r2 ∈ futQuotes odds allowed (futKey r1)) ∧
    (findFuturesValue c10Odds c10Books = [c10Rec] ∧
     c10Rec.best_book = c10Rec.worst_book ∧
     c10Rec.best_odds = 150 ∧ c10Rec.worst_odds = -120 ∧
     c10RowA.event_id ≠ c10RowB.event_id ∧
     c10RowA.home_team ≠ c10RowB.home_team) := by
  constructor
  · intro odds allowed r1 r2 h1 h2 hq1 hq2 hs ho
    have hkey : futKey r2 = futKey r1 := by
      unfold futKey
      rw [hs, ho]
    constructor
    · unfold futQuotes
      apply List.mem_map_of_mem
      rw [List.mem_filter]
      exact ⟨List.mem_filter.mpr ⟨h1, hq1⟩, by simp⟩
    · unfold futQuotes
      apply List.mem_map_of_mem
      rw [List.mem_filter]
      exact ⟨List.mem_filter.mpr ⟨h2, hq2⟩, by simp [hkey]⟩
  · refine ⟨by decide, by decide, by decide, by decide, by decide, by decide⟩

theorem c10_futures_grouping_witness :
    c10RowA ∈ c10Odds ∧ c10RowB ∈ c10Odds ∧
    futQualifies c10Books c10RowA = true ∧ futQualifies c10Books c10RowB = true ∧
    c10RowA.sport = c10RowB.sport ∧ c10RowA.outcome = c10RowB.outcome ∧
    (futQuoteOf c10RowA ∈ futQuotes c10Odds c10Books (futKey c10RowA) ∧
     futQuoteOf c10RowB ∈ futQuotes c10Odds c10Books (futKey c10RowA)) :=
  ⟨by decide, by decide, by decide, by decide, rfl, rfl,
   c10_futures_grouping_by_sport_and_team.1 c10Odds c10Books c10RowA c10RowB
     (by decide) (by decide) (by decide) (by decide) rfl rfl⟩

/-- Claim C3 (spec-modelled Alert Dedup Store): a key marked at `t0` is
suppressed by every run strictly before `t0 + 24h`, and — once every
entry for it has aged out — is emitted again by a run at or after
`t0 + 24h` whenever it is a candidate. -/
theorem c3_dedup_window (s : DedupStore) (cands : List String) (key : String)
    (t0 now : ℤ) :
    (((key, t0) ∈ s.entries) → now < t0 + microPerDay →
      key ∉ (runDedup s cands now).1) ∧
    ((∀ p ∈ s.entries, p.1 = key → p.2 = t0) → t0 + microPerDay ≤ now →
      key ∈ cands → key ∈ (runDedup s cands now).1) := by
  constructor
  · intro hmem hfresh hkey
    unfold runDedup at hkey
    simp only [] at hkey
    rw [List.mem_filter] at hkey
    obtain ⟨hc, hnew⟩ := hkey
    have hload : (key, t0) ∈ (cleanOnLoad s now).entries := by
      unfold cleanOnLoad
      rw [List.mem_filter]
      refine ⟨hmem, ?_⟩
      simp only [decide_eq_true_eq]
      exact hfresh
    unfold isNewKey at hnew
    rw [List.all_eq_true] at hnew
    have hcontra := hnew (key, t0) hload
    simp at hcontra
  · intro hall hold hc
    unfold runDedup
    simp only []
    rw [List.mem_filter]
    refine ⟨hc, ?_⟩
    unfold isNewKey
    rw [List.all_eq_true]
    intro p hp
    unfold cleanOnLoad at hp
    rw [List.mem_filter] at hp
    obtain ⟨hpmem, hpt⟩ := hp
    simp only [decide_eq_true_eq] at hpt
    simp only [decide_eq_true_eq]
    intro hpk
    have hpt0 := hall p hpmem hpk
    rw [hpt0] at hpt
    omega

theorem c3_dedup_window_witness :
    ((("k1", (0 : ℤ)) ∈ (DedupStore.mk [("k1", 0)]).entries ∧
      (1000 : ℤ) < 0 + microPerDay ∧
      "k1" ∉ (runDedup (DedupStore.mk [("k1", 0)]) ["k1"] 1000).1) ∧
     ((∀ p ∈ (DedupStore.mk [("k1", (0 : ℤ))]).entries, p.1 = "k1" → p.2 = 0) ∧
      (0 : ℤ) + microPerDay ≤ microPerDay ∧ "k1" ∈ ["k1"] ∧
      "k1" ∈ (runDedup (DedupStore.mk [("k1", 0)]) ["k1"] microPerDay).1)) :=
  ⟨⟨by decide, by decide,
    (c3_dedup_window (DedupStore.mk [("k1", 0)]) ["k1"] "k1" 0 1000).1
      (by decide) (by decide)⟩,
   ⟨by decide, by decide, by decide,
    (c3_dedup_window (DedupStore.mk [("k1", 0)]) ["k1"] "k1" 0 microPerDay).2
      (by decide) (by decide) (by decide)⟩⟩

/-- Claim C5: the worked example — home -150 (fanduel), away +160
(draftkings) — yields decimal odds 5/3 (1.6667 to four places) and 13/5
(2.6), an implied-probability sum rounding to 0.9846, an emitted
opportunity with `roi_percent` 1.56, stakes 60.94 and 39.06 on a $100
total stake, and profit 1.56. -/
theorem c5_worked_example :
    americanToDecimal (-150) = some (5/3) ∧
    americanToDecimal 160 = some (13/5) ∧
    pyRound (5/3 : ℚ) 4 = 1.6667 ∧
    pyRound (13/5 : ℚ) 4 = 2.6 ∧
    pyRound ((1 : ℚ) / (5/3) + 1 / (13/5)) 4 = 0.9846 ∧
    (checkTwoWayArb c5Side1 c5Side2 c5Event "moneyline" "ev1" none none).map
        (fun o => (o.roi_percent, o.leg1.stake, o.leg2.stake, o.profit,
          o.leg1.book, o.leg2.book)) =
      some (1.56, 60.94, 39.06, 1.56, "fanduel", "draftkings") := by
  decide
